import Mathlib

/-!
Verification development for the trivia-game server (`src/server.js`).

The server is shallowly embedded: each socket handler becomes a pure
function from the room (`Game`) state to a new state plus the list of
messages emitted during that handler.  JavaScript runtime errors
(`TypeError` from dereferencing `null`) are modelled by returning `none`
from the handler.  `Math.floor(Math.random() * n)` — which always lands
in `[0, n)` — is modelled by an oracle `r : Nat → Nat` used as
`r n % n`, so every outcome the runtime can produce is representable and
the model stays total.  The unbounded recursion in `getRandomQuestion`
is modelled with explicit fuel; running out of fuel is the `diverge`
result.
-/

/-- A player record, as built by `Game.addPlayer`. -/
structure Player where
  id : String
  name : String
  score : Nat
  isHost : Bool
deriving Repr, DecidableEq

/-- A question record from the bank: `{question, answers[], correctIndex}`. -/
structure QRec where
  question : String
  answers : List String
  correctIndex : Nat
deriving Repr, DecidableEq

/-- A drawn question: a bank record extended with its strand and derived id
(`` `${strand}-${idx}` ``). -/
structure Question where
  question : String
  answers : List String
  correctIndex : Nat
  strand : String
  id : String
deriving Repr, DecidableEq

instance : Inhabited Question :=
  ⟨{ question := "", answers := [], correctIndex := 0, strand := "", id := "" }⟩

/-- JavaScript `Map.get`: association-list lookup by key. -/
def mapGet {β : Type} : List (String × β) → String → Option β
  | [], _ => none
  | e :: rest, k => if e.1 == k then some e.2 else mapGet rest k

/-- JavaScript `Map.set`: overwrite in place when the key exists (keeping its
insertion position), otherwise append at the end. -/
def mapSet {β : Type} : List (String × β) → String → β → List (String × β)
  | [], k, v => [(k, v)]
  | e :: rest, k, v =>
    if e.1 == k then (k, v) :: rest else e :: mapSet rest k v

/-- The mutable state of one `Game` instance.  `timerInterval` (a live
`setInterval` handle or `null`) is modelled by the boolean `timerActive`;
`clearInterval` sets it to `false`. -/
structure Game where
  code : String
  hostId : String
  players : List (String × Player)
  started : Bool
  gradeLevel : Option String
  currentQuestion : Option Question
  questionIndex : Nat
  usedQuestions : List String
  questionAnswered : Bool
  timerActive : Bool
  timeRemaining : Int
  winner : Option Player
deriving Repr, DecidableEq

/-- The `Game` constructor. -/
def Game.new (code hostId : String) : Game :=
  { code := code
    hostId := hostId
    players := []
    started := false
    gradeLevel := none
    currentQuestion := none
    questionIndex := 0
    usedQuestions := []
    questionAnswered := false
    timerActive := false
    timeRemaining := 15
    winner := none }

/-- `Game.addPlayer`: always inserts a fresh record with `score: 0`. -/
def Game.addPlayer (g : Game) (socketId : String) (nm : String) : Game :=
  let p : Player :=
    { id := socketId, name := nm, score := 0, isHost := socketId == g.hostId }
  { g with players := mapSet g.players socketId p }

/-- `Game.getPlayerList`: the map's values in insertion order. -/
def getPlayerList (g : Game) : List Player :=
  g.players.map (·.2)

/-- `Game.checkWinner`: first player (in insertion order) with `score >= 10`,
else `null`. -/
def checkWinner (g : Game) : Option Player :=
  (getPlayerList g).find? (fun p => 10 ≤ p.score)

/-- The character class `[A-Za-z0-9]`. -/
def isAlnumChar (c : Char) : Bool :=
  ('A' ≤ c && c ≤ 'Z') || ('a' ≤ c && c ≤ 'z') || ('0' ≤ c && c ≤ '9')

/-- `isValidCode`: the regex `^[A-Za-z0-9]{8}$`. -/
def isValidCode (code : String) : Bool :=
  code.data.length == 8 && code.data.all isAlnumChar

/-- `toUpperCase` on one character (ASCII range, which is all a valid code
can contain). -/
def toUpperChar (c : Char) : Char :=
  if 'a' ≤ c && c ≤ 'z' then Char.ofNat (c.toNat - 32) else c

/-- `String.prototype.toUpperCase`. -/
def toUpperStr (s : String) : String :=
  ⟨s.data.map toUpperChar⟩

/-- Everything a handler can emit, to the sender (`socket.emit`) or to the
room (`io.to(code).emit`).  The string payload of `errorMsg` identifies the
error: the spec's `InvalidCode`, `DuplicateCode`, `NotHost`, … are the
messages below. -/
inductive Emit where
  | errorMsg (message : String)
  | gameCreated (code : String) (isHost : Bool)
  | gameJoined (code : String) (isHost : Bool)
  | playerList (players : List Player)
  | gameStarted (gradeLevel : String)
  | newQuestion (question : String) (answers : List String) (strand : String)
      (questionNumber : Nat)
  | timerUpdate (timeRemaining : Int)
  | questionResult (winnerId winnerName : String) (correctIndex : Nat)
      (scores : List Player)
  | timeUp (correctIndex : Nat) (scores : List Player)
  | gameOver (winner : Player) (scores : List Player)
  | gameReset (players : List Player)
deriving Repr, DecidableEq

/-- The `createGame` handler, acting on the process-wide `games` registry.
(The handler also sets `socket.gameCode`; connection-scoped state is not
needed for the registry properties proved below.) -/
def createGame (games : List (String × Game)) (code : String) (sid : String) :
    List (String × Game) × List Emit :=
  if !isValidCode code then
    (games, [Emit.errorMsg "Game code must be exactly 8 alphanumeric characters"])
  else
    let upperCode := toUpperStr code
    if (mapGet games upperCode).isSome then
      (games, [Emit.errorMsg "A game with this code already exists"])
    else
      (mapSet games upperCode (Game.new upperCode sid),
       [Emit.gameCreated upperCode true])

/-- `String.prototype.trim`: strip whitespace from both ends. -/
def jsTrim (s : String) : String :=
  ⟨((s.data.dropWhile Char.isWhitespace).reverse.dropWhile
      Char.isWhitespace).reverse⟩

/-- `String.prototype.substring(0, n)`: the first `n` characters. -/
def jsTake (s : String) (n : Nat) : String :=
  ⟨s.data.take n⟩

/-- The `setName` handler (for a connection already associated with this
game; a missing game returns silently before this point). -/
def setName (g : Game) (cid : String) (nm : String) : Game × List Emit :=
  let trimmedName := jsTake (jsTrim nm) 20
  if trimmedName = "" then (g, [Emit.errorMsg "Please enter a valid name"])
  else
    let g1 := g.addPlayer cid trimmedName
    (g1, [Emit.playerList (getPlayerList g1)])

/-- The `startGame` handler (game already looked up).  The deferred
`sendNextQuestion` call (1 s later) is a separate scheduled event, not part
of this handler's synchronous effect. -/
def startGame (g : Game) (cid : String) (gradeLevel : String) :
    Game × List Emit :=
  if cid != g.hostId then
    (g, [Emit.errorMsg "Only the host can start the game"])
  else if !(["6th", "7th", "8th"].contains gradeLevel) then
    (g, [Emit.errorMsg "Invalid grade level"])
  else
    ({ g with gradeLevel := some gradeLevel, started := true },
     [Emit.gameStarted gradeLevel])

/-- The `submitAnswer` handler.  Result `none` models the uncaught
`TypeError` thrown by `game.currentQuestion.correctIndex` when
`currentQuestion` is `null`.  The scheduled `sendNextQuestion` (3 s later)
is a separate event. -/
def submitAnswer (g : Game) (cid : String) (answerIndex : Nat) :
    Option (Game × List Emit) :=
  if !g.started || g.questionAnswered then some (g, [])
  else
    match mapGet g.players cid with
    | none => some (g, [])
    | some player =>
      match g.currentQuestion with
      | none => none
      | some q =>
        if answerIndex == q.correctIndex then
          let player1 : Player := { player with score := player.score + 1 }
          let g1 : Game := { g with
            questionAnswered := true
            timerActive := false
            players := mapSet g.players cid player1 }
          let res := Emit.questionResult cid player1.name q.correctIndex
            (getPlayerList g1)
          match checkWinner g1 with
          | some w =>
            some ({ g1 with winner := some w },
              [res, Emit.gameOver w (getPlayerList g1)])
          | none => some (g1, [res])
        else some (g, [])

/-- One firing of the countdown `setInterval` callback.  A cleared interval
never fires, so on `timerActive = false` the tick is a no-op; `none` models
the `TypeError` from `game.currentQuestion.correctIndex` when the question
is `null` at expiry. -/
def timerTick (g : Game) : Option (Game × List Emit) :=
  if !g.timerActive then some (g, [])
  else
    let g1 : Game := { g with timeRemaining := g.timeRemaining - 1 }
    let upd := Emit.timerUpdate g1.timeRemaining
    if g1.timeRemaining ≤ 0 then
      let g2 : Game := { g1 with timerActive := false }
      if !g2.questionAnswered then
        match g2.currentQuestion with
        | none => none
        | some q =>
          some ({ g2 with questionAnswered := true },
            [upd, Emit.timeUp q.correctIndex (getPlayerList g2)])
      else some (g2, [upd])
    else some (g1, [upd])

/-- The `playAgain` handler. -/
def playAgain (g : Game) (cid : String) : Game × List Emit :=
  if cid != g.hostId then
    (g, [Emit.errorMsg "Only the host can restart the game"])
  else
    let g1 : Game := { g with
      started := false
      currentQuestion := none
      questionIndex := 0
      usedQuestions := []
      questionAnswered := false
      winner := none
      timerActive := false
      players := g.players.map (fun e => (e.1, { e.2 with score := 0 })) }
    (g1, [Emit.gameReset (getPlayerList g1)])

/-- `questions[gradeLevel]` where `gradeLevel` may still be `null`
(`questions[null]` is `undefined`). -/
def lookupGrade (bank : String → Option (List (String × List QRec))) :
    Option String → Option (List (String × List QRec))
  | none => none
  | some gl => bank gl

/-- The strand-flattening loop of `getRandomQuestion`: every strand's list
becomes `{...q, strand, id: `${strand}-${idx}`}` records, in order. -/
def flattenStrands (gradeQuestions : List (String × List QRec)) : List Question :=
  gradeQuestions.flatMap fun s =>
    s.2.enum.map fun p =>
      { question := p.2.question
        answers := p.2.answers
        correctIndex := p.2.correctIndex
        strand := s.1
        id := s.1 ++ "-" ++ toString p.1 }

/-- Outcome of `Game.getRandomQuestion`: a drawn question plus the updated
state, the JavaScript `null` return (grade level missing from the bank), or
non-termination of the self-recursion within the given fuel. -/
inductive DrawResult where
  | drawn (q : Question) (g : Game)
  | nullResult
  | diverge
deriving Repr

/-- `Game.getRandomQuestion`, with fuel bounding the recursion depth.  Two
units of fuel are exact whenever the grade's pool is non-empty, because the
clear-and-retry branch can be taken at most once in that case. -/
def getRandomQuestionF (bank : String → Option (List (String × List QRec)))
    (r : Nat → Nat) : Nat → Game → DrawResult
  | 0, _ => .diverge
  | fuel + 1, g =>
    match lookupGrade bank g.gradeLevel with
    | none => .nullResult
    | some gradeQuestions =>
      let allQuestions := flattenStrands gradeQuestions
      let availableQuestions :=
        allQuestions.filter fun q => !g.usedQuestions.contains q.id
      if availableQuestions.length = 0 then
        getRandomQuestionF bank r fuel { g with usedQuestions := [] }
      else
        let randomIndex := r availableQuestions.length % availableQuestions.length
        let question := availableQuestions.getD randomIndex default
        .drawn question { g with usedQuestions := question.id :: g.usedQuestions }

/-- A sequence of consecutive draws, one oracle per draw; `none` when any
draw returns `null` or diverges. -/
def drawSeq (bank : String → Option (List (String × List QRec)))
    (rs : List (Nat → Nat)) (g : Game) : Option (List Question × Game) :=
  match rs with
  | [] => some ([], g)
  | r :: rest =>
    match getRandomQuestionF bank r 2 g with
    | .drawn q g1 =>
      match drawSeq bank rest g1 with
      | some (qs, g2) => some (q :: qs, g2)
      | none => none
    | _ => none

/-- The tagging pass of `shuffleAnswers`:
`answers.map((answer, idx) => ({answer, isCorrect: idx === correctIndex}))`. -/
structure AnswerObj where
  answer : String
  isCorrect : Bool
deriving Repr, DecidableEq

/-- `tagFrom correctIndex idx rest` tags `rest`, whose head sits at
position `idx` of the original array. -/
def tagFrom (correctIndex : Nat) : Nat → List String → List AnswerObj
  | _, [] => []
  | idx, a :: rest =>
    { answer := a, isCorrect := idx == correctIndex } ::
      tagFrom correctIndex (idx + 1) rest

/-- The destructuring swap `[a[i], a[j]] = [a[j], a[i]]` (identity when an
index is out of range, which the shuffle loop never produces). -/
def swapList {α : Type} (l : List α) (i j : Nat) : List α :=
  match l[i]?, l[j]? with
  | some x, some y => (l.set i y).set j x
  | _, _ => l

/-- The Fisher–Yates loop, counting the loop variable `i` down to `1`;
`j = Math.floor(Math.random() * (i + 1))` is `r (i+1) % (i+1)`. -/
def fisherYatesAux {α : Type} (r : Nat → Nat) : Nat → List α → List α
  | 0, l => l
  | i + 1, l => fisherYatesAux r i (swapList l (i + 1) (r (i + 2) % (i + 2)))

/-- `shuffleAnswers`.  `findIndex` is modelled by `List.findIdx`, which
returns the length instead of `-1` when nothing matches (both are
out-of-range markers; with an in-range correct index a match always
exists). -/
def shuffleAnswers (r : Nat → Nat) (answers : List String) (correctIndex : Nat) :
    List String × Nat :=
  let answerObjs := tagFrom correctIndex 0 answers
  let shuffled := fisherYatesAux r (answerObjs.length - 1) answerObjs
  (shuffled.map (·.answer), shuffled.findIdx (·.isCorrect))

/-- `sendNextQuestion` (the scheduled round-advance).  `none` covers both
runtime failure modes: `shuffleAnswers(null.answers, …)` when the draw
returned `null`, and the draw itself never returning. -/
def sendNextQuestion (bank : String → Option (List (String × List QRec)))
    (rDraw rShuffle : Nat → Nat) (fuel : Nat) (g : Game) :
    Option (Game × List Emit) :=
  if !g.started || g.winner.isSome then some (g, [])
  else
    let g1 : Game := { g with questionAnswered := false }
    match getRandomQuestionF bank rDraw fuel g1 with
    | .nullResult => none
    | .diverge => none
    | .drawn q g2 =>
      let g3 : Game := { g2 with
        currentQuestion := some q
        questionIndex := g2.questionIndex + 1
        timeRemaining := 15 }
      let sh := shuffleAnswers rShuffle q.answers q.correctIndex
      let q1 : Question := { q with answers := sh.1, correctIndex := sh.2 }
      let g4 : Game := { g3 with currentQuestion := some q1, timerActive := true }
      some (g4, [Emit.newQuestion q1.question q1.answers q1.strand g4.questionIndex])

/-- Resolution broadcasts: `questionResult` and `timeUp`. -/
def isResolution : Emit → Bool
  | .questionResult _ _ _ _ => true
  | .timeUp _ _ => true
  | _ => false

/-- Number of resolution broadcasts in an emission list. -/
def countRes (bs : List Emit) : Nat :=
  (bs.filter isResolution).length

/-- Number of resolution broadcasts emitted by a (possibly crashed)
handler outcome. -/
def resCountO : Option (Game × List Emit) → Nat
  | none => 0
  | some s => countRes s.2

/-- Run a second handler on the state produced by a first, concatenating
their emissions; a crash in either is a crash of the whole. -/
def chain (x : Option (Game × List Emit))
    (f : Game → Option (Game × List Emit)) : Option (Game × List Emit) :=
  match x with
  | none => none
  | some (g, bs) =>
    match f g with
    | none => none
    | some (g1, bs1) => some (g1, bs ++ bs1)

/-! ## Concrete instances used by witnesses and counterexamples -/

/-- A sample drawn question (correct answer at index 1). -/
def exQuestion : Question :=
  { question := "2+2?"
    answers := ["3", "4", "5", "6"]
    correctIndex := 1
    strand := "algebra"
    id := "algebra-0" }

/-- The host's player record in the sample rooms. -/
def pHostEx : Player :=
  { id := "h", name := "Host", score := 0, isHost := true }

/-- A non-host player record with a given score. -/
def pPlayerEx (sc : Nat) : Player :=
  { id := "p", name := "Pat", score := sc, isHost := false }

/-- A started room whose first question has not been drawn yet
(`currentQuestion` is still `null`): the state right after `startGame`,
during the 1 s delay before `sendNextQuestion` runs. -/
def gameNoQuestion : Game :=
  { code := "ABCD1234"
    hostId := "h"
    players := [("h", pHostEx), ("p", pPlayerEx 0)]
    started := true
    gradeLevel := some "6th"
    currentQuestion := none
    questionIndex := 0
    usedQuestions := []
    questionAnswered := false
    timerActive := false
    timeRemaining := 15
    winner := none }

/-- A started room with an active, unanswered question and a running
countdown on its final second, where the non-host player's score is `sc`. -/
def gameActiveQ (sc : Nat) : Game :=
  { code := "ABCD1234"
    hostId := "h"
    players := [("h", pHostEx), ("p", pPlayerEx sc)]
    started := true
    gradeLevel := some "6th"
    currentQuestion := some exQuestion
    questionIndex := 1
    usedQuestions := ["algebra-0"]
    questionAnswered := false
    timerActive := true
    timeRemaining := 1
    winner := none }

/-- The grade-`6th` strands of the sample bank: two strands, three
questions in total. -/
def gradeSixEx : List (String × List QRec) :=
  [("algebra",
     [{ question := "2+2?", answers := ["3", "4", "5", "6"], correctIndex := 1 },
      { question := "3*3?", answers := ["6", "9"], correctIndex := 1 }]),
   ("geometry",
     [{ question := "sides of a square?", answers := ["3", "4"], correctIndex := 1 }])]

/-- A sample question bank: grade `6th` has two strands with three
questions in total; other grades are absent. -/
def bankEx : String → Option (List (String × List QRec))
  | "6th" => some gradeSixEx
  | _ => none

/-- Three constant draw oracles (always picking the first available
question). -/
def rsEx : List (Nat → Nat) :=
  [fun _ => 0, fun _ => 0, fun _ => 0]

/-- A bank whose grade `6th` is configured but holds zero questions (one
empty strand). -/
def emptyBank : String → Option (List (String × List QRec))
  | "6th" => some [("algebra", [])]
  | _ => none

/-! ## Helper lemmas -/

theorem mapGet_mapSet_self {β : Type} (m : List (String × β)) (k : String) (v : β) :
    mapGet (mapSet m k v) k = some v := by
  induction m with
  | nil => simp [mapGet, mapSet]
  | cons e rest ih =>
    by_cases h : e.1 = k
    · simp [mapGet, mapSet, h]
    · simp [mapGet, mapSet, h, ih]

theorem mapSet_mem_self {β : Type} (m : List (String × β)) (k : String) (v : β) :
    (k, v) ∈ mapSet m k v := by
  induction m with
  | nil => simp [mapSet]
  | cons e rest ih =>
    by_cases h : e.1 = k
    · simp [mapSet, h]
    · simp [mapSet, h, List.mem_cons, ih]

theorem mem_mapSet {β : Type} (m : List (String × β)) (k : String) (v : β) :
    ∀ e ∈ mapSet m k v, e ∈ m ∨ e = (k, v) := by
  induction m with
  | nil => simp [mapSet]
  | cons a t ih =>
    intro e he
    by_cases h : a.1 = k
    · simp [mapSet, h] at he
      rcases he with he | he
      · right; simp [he]
      · left; exact List.mem_cons_of_mem _ he
    · simp only [mapSet, h] at he
      simp only [beq_iff_eq, h, if_false, List.mem_cons] at he
      rcases he with he | he
      · left; simp [he]
      · rcases ih e he with h1 | h1
        · left; exact List.mem_cons_of_mem _ h1
        · right; exact h1

theorem find?_eq_of_mem_of_unique {α : Type} {pred : α → Bool} {v : α} :
    ∀ {l : List α}, v ∈ l → pred v = true →
      (∀ x ∈ l, pred x = true → x = v) → l.find? pred = some v := by
  intro l
  induction l with
  | nil => intro h; simp at h
  | cons a t ih =>
    intro hm hv hu
    by_cases h : pred a = true
    · have ha : a = v := hu a (by simp) h
      rw [List.find?_cons_of_pos _ h, ha]
    · have hvm : v ∈ t := by
        cases List.mem_cons.1 hm with
        | inl he => exact absurd (he ▸ hv) h
        | inr ht => exact ht
      rw [List.find?_cons_of_neg _ (by simpa using h)]
      exact ih hvm hv (fun x hx => hu x (List.mem_cons_of_mem _ hx))

theorem set_cons_perm {α : Type} (x : α) :
    ∀ (t : List α) (j : Nat) (y : α), t[j]? = some y →
      List.Perm (y :: t.set j x) (x :: t) := by
  intro t
  induction t with
  | nil => intro j y h; simp at h
  | cons a t ih =>
    intro j y h
    cases j with
    | zero =>
      simp at h
      subst h
      exact List.Perm.swap x a t
    | succ j =>
      simp at h
      have h2 := ih j y h
      exact ((List.Perm.swap a y _).trans (h2.cons a)).trans (List.Perm.swap x a t)

theorem swapList_cons_succ {α : Type} (a : α) (t : List α) (i j : Nat) :
    swapList (a :: t) (i + 1) (j + 1) = a :: swapList t i j := by
  cases hi : t[i]? with
  | none => simp [swapList, hi]
  | some x =>
    cases hj : t[j]? with
    | none => simp [swapList, hi, hj]
    | some y => simp [swapList, hi, hj]

theorem swapList_perm {α : Type} :
    ∀ (l : List α) (i j : Nat), List.Perm (swapList l i j) l := by
  intro l
  induction l with
  | nil => intro i j; simp [swapList]
  | cons a t ih =>
    intro i j
    cases i with
    | zero =>
      cases j with
      | zero =>
        simp [swapList]
      | succ j =>
        cases h : t[j]? with
        | none => simp [swapList, h]
        | some y =>
          have he : swapList (a :: t) 0 (j + 1) = y :: t.set j a := by
            simp [swapList, h]
          rw [he]
          exact set_cons_perm a t j y h
    | succ i =>
      cases j with
      | zero =>
        cases h : t[i]? with
        | none => simp [swapList, h]
        | some x =>
          have he : swapList (a :: t) (i + 1) 0 = x :: t.set i a := by
            simp [swapList, h]
          rw [he]
          exact set_cons_perm a t i x h
      | succ j =>
        rw [swapList_cons_succ]
        exact (ih i j).cons a

theorem fisherYatesAux_perm {α : Type} (r : Nat → Nat) :
    ∀ (n : Nat) (l : List α), List.Perm (fisherYatesAux r n l) l := by
  intro n
  induction n with
  | zero => intro l; simp [fisherYatesAux]
  | succ i ih =>
    intro l
    exact (ih _).trans (swapList_perm l (i + 1) _)

theorem tagFrom_map_answer (c : Nat) :
    ∀ (k : Nat) (l : List String), (tagFrom c k l).map (·.answer) = l := by
  intro k l
  induction l generalizing k with
  | nil => simp [tagFrom]
  | cons a rest ih => simp [tagFrom, ih]

theorem tagFrom_mem_correct (c : Nat) :
    ∀ (l : List String) (k : Nat) (o : AnswerObj), o ∈ tagFrom c k l →
      o.isCorrect = true → ∃ j, k + j = c ∧ l[j]? = some o.answer := by
  intro l
  induction l with
  | nil => intro k o h; simp [tagFrom] at h
  | cons a rest ih =>
    intro k o h hc
    simp only [tagFrom, List.mem_cons] at h
    rcases h with h | h
    · refine ⟨0, ?_, ?_⟩
      · have : (k == c) = true := by rw [h] at hc; exact hc
        simpa using this
      · simp [h]
    · rcases ih (k + 1) o h hc with ⟨j, hj, hg⟩
      exact ⟨j + 1, by omega, by simpa using hg⟩

theorem tagFrom_correct_mem (c : Nat) :
    ∀ (l : List String) (k : Nat), k ≤ c → c - k < l.length →
      ∃ a, l[c - k]? = some a ∧
        ({ answer := a, isCorrect := true } : AnswerObj) ∈ tagFrom c k l := by
  intro l
  induction l with
  | nil => intro k hk h; simp at h
  | cons a rest ih =>
    intro k hk h
    by_cases hkc : k = c
    · refine ⟨a, ?_, ?_⟩
      · simp [hkc]
      · simp [tagFrom, hkc]
    · have hk1 : k + 1 ≤ c := by omega
      have h1 : c - (k + 1) < rest.length := by
        simp at h
        omega
      rcases ih (k + 1) hk1 h1 with ⟨b, hb, hm⟩
      refine ⟨b, ?_, ?_⟩
      · have : c - k = (c - (k + 1)) + 1 := by omega
        rw [this]
        simpa using hb
      · simp only [tagFrom, List.mem_cons]
        exact Or.inr hm

/-! ## Claims -/

/-- C1: the spec says `submitAnswer` is ignored when the room has no active
current question (e.g. after `startGame`, before the first question is
drawn) — state unchanged, nothing emitted, no failure.  The code has no
guard for `currentQuestion === null`: with a registered player it
dereferences `game.currentQuestion.correctIndex` on `null` and throws.
This evaluates the handler at exactly that state; `none` is the model of
the thrown `TypeError`. -/
theorem c1_submitAnswer_crashes_without_question :
    submitAnswer gameNoQuestion "p" 0 = none := by rfl

/-- C10: in a started room with an active unanswered question, a
`submitAnswer` from a connection with no `Player` entry is silently
ignored — the state (scores, latch, timer) is unchanged and nothing is
emitted, whatever index was submitted. -/
theorem c10_submit_without_player_ignored (g : Game) (cid : String)
    (q : Question) (answerIndex : Nat)
    (hs : g.started = true) (ha : g.questionAnswered = false)
    (hq : g.currentQuestion = some q) (hp : mapGet g.players cid = none) :
    submitAnswer g cid answerIndex = some (g, []) := by
  simp [submitAnswer, hs, ha, hp]

/-- Witness for C10: connection `z` never registered a name in the active
room and submits the correct index; the handler is a no-op. -/
theorem c10_witness :
    submitAnswer (gameActiveQ 0) "z" 1 = some (gameActiveQ 0, []) :=
  c10_submit_without_player_ignored (gameActiveQ 0) "z" exQuestion 1 rfl rfl rfl
    (by decide)

/-- C9: a successful `setName` for a connection that already has a `Player`
entry with a positive score replaces it by a fresh entry with score `0`
(the accumulated score is discarded). -/
theorem c9_setName_resets_score (g : Game) (cid : String) (p : Player)
    (nm : String) (hp : mapGet g.players cid = some p) (hpos : 0 < p.score)
    (hname : ¬ jsTake (jsTrim nm) 20 = "") :
    mapGet (setName g cid nm).1.players cid =
      some { id := cid, name := jsTake (jsTrim nm) 20, score := 0,
             isHost := cid == g.hostId } := by
  simp [setName, hname, Game.addPlayer, mapGet_mapSet_self]

/-- Witness for C9: player `p` has score `3`; renaming resets it to `0`. -/
theorem c9_witness :
    mapGet (setName (gameActiveQ 3) "p" " Pat Renamed ").1.players "p" =
      some { id := "p", name := jsTake (jsTrim " Pat Renamed ") 20, score := 0,
             isHost := ("p" == "h") } :=
  c9_setName_resets_score (gameActiveQ 3) "p" (pPlayerEx 3) " Pat Renamed "
    (by decide) (by decide) (by decide)

/-- C8: `playAgain` by the host resets `started`, the current question, the
question index, the used-question set, the answered latch, the winner and
the timer, and zeroes every player's score while keeping the roster (same
keys and names, in order); by a non-host it emits the `NotHost` error and
changes nothing. -/
theorem c8_playAgain_resets (g : Game) (cid : String) :
    (cid = g.hostId →
      (playAgain g cid).1.started = false ∧
      (playAgain g cid).1.currentQuestion = none ∧
      (playAgain g cid).1.questionIndex = 0 ∧
      (playAgain g cid).1.usedQuestions = [] ∧
      (playAgain g cid).1.questionAnswered = false ∧
      (playAgain g cid).1.winner = none ∧
      (playAgain g cid).1.timerActive = false ∧
      (playAgain g cid).1.players.map (fun e => (e.1, e.2.name)) =
        g.players.map (fun e => (e.1, e.2.name)) ∧
      (∀ e ∈ (playAgain g cid).1.players, e.2.score = 0)) ∧
    (cid ≠ g.hostId →
      playAgain g cid =
        (g, [Emit.errorMsg "Only the host can restart the game"])) := by
  constructor
  · intro h
    simp [playAgain, h]
    intro a b x x1 hmem hx hb
    subst hb
    rfl
  · intro h
    simp [playAgain, h]

/-- Witness for C8: the host resets a room mid-game; a non-host gets the
error and the room is untouched. -/
theorem c8_witness :
    ((playAgain (gameActiveQ 9) "h").1.started = false ∧
     (playAgain (gameActiveQ 9) "h").1.currentQuestion = none ∧
     (playAgain (gameActiveQ 9) "h").1.questionIndex = 0 ∧
     (playAgain (gameActiveQ 9) "h").1.usedQuestions = [] ∧
     (playAgain (gameActiveQ 9) "h").1.questionAnswered = false ∧
     (playAgain (gameActiveQ 9) "h").1.winner = none ∧
     (playAgain (gameActiveQ 9) "h").1.timerActive = false ∧
     (playAgain (gameActiveQ 9) "h").1.players.map (fun e => (e.1, e.2.name)) =
       (gameActiveQ 9).players.map (fun e => (e.1, e.2.name)) ∧
     (∀ e ∈ (playAgain (gameActiveQ 9) "h").1.players, e.2.score = 0)) ∧
    playAgain (gameActiveQ 9) "z" =
      (gameActiveQ 9, [Emit.errorMsg "Only the host can restart the game"]) :=
  ⟨(c8_playAgain_resets (gameActiveQ 9) "h").1 rfl,
   (c8_playAgain_resets (gameActiveQ 9) "z").2 (by decide)⟩

/-- C6: with a valid 8-alphanumeric code whose upper-cased form is not yet
registered, `createGame` succeeds and registers the room under the
upper-cased code; a second creation with the same code in any letter case
(also valid, same upper-case form) fails with the `DuplicateCode` error and
leaves the registry unchanged; an invalid code fails with the `InvalidCode`
error and registers nothing. -/
theorem c6_createRoom_unique (games : List (String × Game)) (c1 sid : String)
    (hv : isValidCode c1 = true)
    (hfresh : mapGet games (toUpperStr c1) = none) :
    createGame games c1 sid =
      (mapSet games (toUpperStr c1) (Game.new (toUpperStr c1) sid),
       [Emit.gameCreated (toUpperStr c1) true]) ∧
    (∀ c2 sid2, isValidCode c2 = true → toUpperStr c2 = toUpperStr c1 →
      createGame (mapSet games (toUpperStr c1) (Game.new (toUpperStr c1) sid))
          c2 sid2 =
        (mapSet games (toUpperStr c1) (Game.new (toUpperStr c1) sid),
         [Emit.errorMsg "A game with this code already exists"])) ∧
    (∀ c3 sid3, isValidCode c3 = false →
      createGame games c3 sid3 =
        (games,
         [Emit.errorMsg "Game code must be exactly 8 alphanumeric characters"])) := by
  refine ⟨?_, ?_, ?_⟩
  · simp [createGame, hv, hfresh]
  · intro c2 sid2 hv2 he
    simp [createGame, hv2, he, mapGet_mapSet_self]
  · intro c3 sid3 hv3
    simp [createGame, hv3]

/-- Witness for C6: `abcd1234` registers as `ABCD1234`; `AbCd1234` then
collides; `xyz` is rejected. -/
theorem c6_witness :
    createGame [] "abcd1234" "h" =
      (mapSet [] (toUpperStr "abcd1234") (Game.new (toUpperStr "abcd1234") "h"),
       [Emit.gameCreated (toUpperStr "abcd1234") true]) ∧
    createGame
        (mapSet [] (toUpperStr "abcd1234") (Game.new (toUpperStr "abcd1234") "h"))
        "AbCd1234" "h2" =
      (mapSet [] (toUpperStr "abcd1234") (Game.new (toUpperStr "abcd1234") "h"),
       [Emit.errorMsg "A game with this code already exists"]) ∧
    createGame [] "xyz" "h3" =
      ([], [Emit.errorMsg "Game code must be exactly 8 alphanumeric characters"]) :=
  ⟨(c6_createRoom_unique [] "abcd1234" "h" (by decide) rfl).1,
   (c6_createRoom_unique [] "abcd1234" "h" (by decide) rfl).2.1 "AbCd1234" "h2"
     (by decide) (by decide),
   (c6_createRoom_unique [] "abcd1234" "h" (by decide) rfl).2.2 "xyz" "h3"
     (by decide)⟩

/-- If every existing entry fails `pred` and the newly written value
satisfies it, the written value is what `find?` returns over the values of
the updated map. -/
theorem find?_map_mapSet_some {pred : Player → Bool}
    (m : List (String × Player)) (k : String) (v : Player)
    (hall : ∀ e ∈ m, pred e.2 = false) (hv : pred v = true) :
    ((mapSet m k v).map (·.2)).find? pred = some v := by
  apply find?_eq_of_mem_of_unique
  · exact List.mem_map.2 ⟨(k, v), mapSet_mem_self m k v, rfl⟩
  · exact hv
  · intro x hx hpx
    rcases List.mem_map.1 hx with ⟨e, he, hex⟩
    rcases mem_mapSet m k v e he with h1 | h1
    · rw [← hex] at hpx
      rw [hall e h1] at hpx
      exact absurd hpx (by simp)
    · rw [← hex, h1]

/-- `sendNextQuestion` is a no-op once a winner is set. -/
theorem sendNextQuestion_winner_noop
    (bank : String → Option (List (String × List QRec)))
    (rDraw rShuffle : Nat → Nat) (fuel : Nat) (g : Game)
    (hw : g.winner.isSome = true) :
    sendNextQuestion bank rDraw rShuffle fuel g = some (g, []) := by
  simp [sendNextQuestion, hw]

/-- A cleared countdown interval no longer fires. -/
theorem timerTick_inactive (g : Game) (ht : g.timerActive = false) :
    timerTick g = some (g, []) := by
  simp [timerTick, ht]

/-- Once the latch is set, `submitAnswer` is a no-op. -/
theorem submitAnswer_latched (g : Game) (cid : String) (i : Nat)
    (ha : g.questionAnswered = true) :
    submitAnswer g cid i = some (g, []) := by
  simp [submitAnswer, ha]


/-- Any `submitAnswer` step that emits `gameOver` leaves some player with a
score of at least 10 in the resulting state: a state whose scores are all
at most 9 never emits `gameOver`. -/
theorem submitAnswer_gameOver_means_ten (g : Game) (cid : String) (i : Nat)
    (s : Game × List Emit) (w : Player) (sc : List Player)
    (hsub : submitAnswer g cid i = some s) (hmem : Emit.gameOver w sc ∈ s.2) :
    ∃ pl ∈ getPlayerList s.1, 10 ≤ pl.score := by
  unfold submitAnswer at hsub
  by_cases hg1 : (!g.started || g.questionAnswered) = true
  · rw [if_pos hg1] at hsub
    simp only [Option.some.injEq] at hsub
    subst hsub
    simp at hmem
  · rw [if_neg hg1] at hsub
    cases hpl : mapGet g.players cid with
    | none =>
      simp only [hpl, Option.some.injEq] at hsub
      subst hsub
      simp at hmem
    | some player =>
      simp only [hpl] at hsub
      cases hcq : g.currentQuestion with
      | none =>
        simp only [hcq] at hsub
        exact Option.noConfusion hsub
      | some q2 =>
        simp only [hcq] at hsub
        by_cases hbi : (i == q2.correctIndex) = true
        · rw [if_pos hbi] at hsub
          cases hcw : checkWinner { g with
              currentQuestion := some q2
              questionAnswered := true
              timerActive := false
              players := mapSet g.players cid
                { player with score := player.score + 1 } } with
          | none =>
            rw [hcw] at hsub
            simp only [Option.some.injEq] at hsub
            subst hsub
            simp at hmem
          | some w1 =>
            rw [hcw] at hsub
            simp only [Option.some.injEq] at hsub
            subst hsub
            have hcw1 : (getPlayerList { g with
                currentQuestion := some q2
                questionAnswered := true
                timerActive := false
                players := mapSet g.players cid
                  { player with score := player.score + 1 } }).find?
                  (fun x => 10 ≤ x.score) = some w1 := hcw
            refine ⟨w1, ?_, ?_⟩
            · have hmem1 := List.mem_of_find?_eq_some hcw1
              simpa [getPlayerList] using hmem1
            · have h10 := List.find?_some hcw1
              simpa using h10
        · rw [if_neg hbi] at hsub
          simp only [Option.some.injEq] at hsub
          subst hsub
          simp at hmem

/-- C5: (i) in a room whose scores are all at most 9, a correct submission
by a player on 9 points raises that player to exactly 10, sets the room's
winner to that player, emits `questionResult` followed by `gameOver` with
that player and the final scores, and afterwards every scheduled
`sendNextQuestion` is a no-op (no further rounds are advanced); (ii) any
`submitAnswer` step whose resulting state still has every score at most 9
emits no `gameOver`. -/
theorem c5_winner_threshold (g : Game) (cid : String) (p : Player)
    (q : Question)
    (hs : g.started = true) (ha : g.questionAnswered = false)
    (hq : g.currentQuestion = some q) (hp : mapGet g.players cid = some p)
    (hall : ∀ pl ∈ getPlayerList g, pl.score ≤ 9) :
    (p.score = 9 →
      ∃ g1, submitAnswer g cid q.correctIndex =
          some (g1,
            [Emit.questionResult cid p.name q.correctIndex (getPlayerList g1),
             Emit.gameOver { p with score := 10 } (getPlayerList g1)]) ∧
        g1.winner = some { p with score := 10 } ∧
        (∀ bank rDraw rShuffle fuel,
          sendNextQuestion bank rDraw rShuffle fuel g1 = some (g1, []))) ∧
    (∀ g' cid' i' s, submitAnswer g' cid' i' = some s →
      (∀ pl ∈ getPlayerList s.1, pl.score ≤ 9) →
      ∀ w sc, Emit.gameOver w sc ∉ s.2) := by
  constructor
  · intro h9
    have hallm : ∀ e ∈ g.players,
        (fun x => (10 ≤ x.score : Bool)) e.2 = false := by
      intro e he
      have hm : e.2 ∈ getPlayerList g := List.mem_map.2 ⟨e, he, rfl⟩
      have h2 := hall e.2 hm
      simp
      omega
    have hp10 : ({ p with score := p.score + 1 } : Player) =
        { p with score := 10 } := by
      rw [h9]
    have hcw : checkWinner { g with
        started := true
        currentQuestion := some q
        questionAnswered := true
        timerActive := false
        players := mapSet g.players cid { p with score := p.score + 1 } } =
        some { p with score := 10 } := by
      unfold checkWinner getPlayerList
      rw [hp10]
      exact find?_map_mapSet_some g.players cid { p with score := 10 } hallm
        (by simp)
    refine ⟨{ g with
        started := true
        currentQuestion := some q
        questionAnswered := true
        timerActive := false
        players := mapSet g.players cid { p with score := p.score + 1 }
        winner := some { p with score := 10 } }, ?_, rfl, ?_⟩
    · simp [submitAnswer, hs, ha, hq, hp, hcw, getPlayerList]
    · intro bank rDraw rShuffle fuel
      exact sendNextQuestion_winner_noop bank rDraw rShuffle fuel _ rfl
  · intro g' cid' i' s hsub hpost w sc hmem
    rcases submitAnswer_gameOver_means_ten g' cid' i' s w sc hsub hmem
      with ⟨pl, hplm, hpl10⟩
    have := hpost pl hplm
    omega

/-- Witness for C5: in the sample room, player `p` sits on 9 points and
answers correctly — `gameOver` fires with the 10-point record; a 9-point
board emits no `gameOver` otherwise. -/
theorem c5_witness :
    ∃ g1, submitAnswer (gameActiveQ 9) "p" exQuestion.correctIndex =
        some (g1,
          [Emit.questionResult "p" (pPlayerEx 9).name exQuestion.correctIndex
             (getPlayerList g1),
           Emit.gameOver { pPlayerEx 9 with score := 10 } (getPlayerList g1)]) ∧
      g1.winner = some { pPlayerEx 9 with score := 10 } ∧
      (∀ bank rDraw rShuffle fuel,
        sendNextQuestion bank rDraw rShuffle fuel g1 = some (g1, [])) :=
  (c5_winner_threshold (gameActiveQ 9) "p" (pPlayerEx 9) exQuestion rfl rfl rfl
    (by decide) (by decide)).1 rfl

/-- A `submitAnswer` step that emits a resolution broadcast checked the
latch (it was `false` before) and set it (`true` afterwards) in the same
step. -/
theorem submitAnswer_res_latch (g : Game) (cid : String) (i : Nat)
    (s : Game × List Emit) (hsub : submitAnswer g cid i = some s)
    (hres : 1 ≤ countRes s.2) :
    g.questionAnswered = false ∧ s.1.questionAnswered = true := by
  unfold submitAnswer at hsub
  by_cases hg1 : (!g.started || g.questionAnswered) = true
  · rw [if_pos hg1] at hsub
    simp only [Option.some.injEq] at hsub
    subst hsub
    simp [countRes] at hres
  · have hqa : g.questionAnswered = false := by
      cases hb : g.questionAnswered
      · rfl
      · rw [hb] at hg1
        simp at hg1
    rw [if_neg hg1] at hsub
    cases hpl : mapGet g.players cid with
    | none =>
      simp only [hpl, Option.some.injEq] at hsub
      subst hsub
      simp [countRes] at hres
    | some player =>
      simp only [hpl] at hsub
      cases hcq : g.currentQuestion with
      | none =>
        simp only [hcq] at hsub
        exact Option.noConfusion hsub
      | some q2 =>
        simp only [hcq] at hsub
        by_cases hbi : (i == q2.correctIndex) = true
        · rw [if_pos hbi] at hsub
          cases hcw : checkWinner { g with
              currentQuestion := some q2
              questionAnswered := true
              timerActive := false
              players := mapSet g.players cid
                { player with score := player.score + 1 } } with
          | none =>
            rw [hcw] at hsub
            simp only [Option.some.injEq] at hsub
            subst hsub
            exact ⟨hqa, rfl⟩
          | some w1 =>
            rw [hcw] at hsub
            simp only [Option.some.injEq] at hsub
            subst hsub
            exact ⟨hqa, rfl⟩
        · rw [if_neg hbi] at hsub
          simp only [Option.some.injEq] at hsub
          subst hsub
          simp [countRes] at hres

/-- A countdown tick that emits a resolution broadcast (`timeUp`) checked
the latch (it was `false` before) and set it (`true` afterwards) in the
same step. -/
theorem timerTick_res_latch (g : Game) (s : Game × List Emit)
    (htick : timerTick g = some s) (hres : 1 ≤ countRes s.2) :
    g.questionAnswered = false ∧ s.1.questionAnswered = true := by
  simp only [timerTick] at htick
  split at htick
  · simp only [Option.some.injEq] at htick
    subst htick
    simp [countRes] at hres
  · split at htick
    · split at htick
      case isTrue hlatch =>
        split at htick
        · exact Option.noConfusion htick
        · next q2 heq =>
          simp only [Option.some.injEq] at htick
          subst htick
          refine ⟨?_, rfl⟩
          simpa using hlatch
      case isFalse hlatch =>
        simp only [Option.some.injEq] at htick
        subst htick
        simp [countRes, isResolution] at hres
    · simp only [Option.some.injEq] at htick
      subst htick
      simp [countRes, isResolution] at hres

/-- C4: for an active unanswered question (latch `false`, timer running on
its last second, a registered player holding the correct answer), running
the correct submission and the timer expiry in either order emits exactly
one resolution broadcast (`questionResult` or `timeUp`) — never both,
never neither: the first completion path wins, the loser is silenced
(`clearInterval` stops a tick after a submission; the latch stops a
submission after an expiry).  Moreover any `submitAnswer` or tick step
that emits a resolution checked the `questionAnswered` latch (it was
`false`) and set it (`true`) in that same step. -/
theorem c4_exactly_one_resolution (g : Game) (cid : String) (p : Player)
    (q : Question)
    (hs : g.started = true) (ha : g.questionAnswered = false)
    (hq : g.currentQuestion = some q) (hp : mapGet g.players cid = some p)
    (ht : g.timerActive = true) (htr : g.timeRemaining = 1) :
    ((chain (submitAnswer g cid q.correctIndex) timerTick).isSome = true ∧
      resCountO (chain (submitAnswer g cid q.correctIndex) timerTick) = 1) ∧
    ((chain (timerTick g)
        (fun g2 => submitAnswer g2 cid q.correctIndex)).isSome = true ∧
      resCountO (chain (timerTick g)
        (fun g2 => submitAnswer g2 cid q.correctIndex)) = 1) ∧
    (∀ g' cid' i' s, submitAnswer g' cid' i' = some s → 1 ≤ countRes s.2 →
      g'.questionAnswered = false ∧ s.1.questionAnswered = true) ∧
    (∀ g' s, timerTick g' = some s → 1 ≤ countRes s.2 →
      g'.questionAnswered = false ∧ s.1.questionAnswered = true) := by
  refine ⟨?_, ?_, ?_, ?_⟩
  · cases hcw : checkWinner { g with
        started := true
        currentQuestion := some q
        questionAnswered := true
        timerActive := false
        players := mapSet g.players cid { p with score := p.score + 1 } } with
    | none =>
      constructor <;>
        simp [chain, submitAnswer, hs, ha, hq, hp, hcw, timerTick, resCountO,
          countRes, isResolution]
    | some w =>
      constructor <;>
        simp [chain, submitAnswer, hs, ha, hq, hp, hcw, timerTick, resCountO,
          countRes, isResolution]
  · constructor <;>
      simp [chain, timerTick, ht, htr, ha, hq, submitAnswer, resCountO,
        countRes, isResolution]
  · intro g' cid' i' s hsub hres
    exact submitAnswer_res_latch g' cid' i' s hsub hres
  · intro g' s ht2 hres
    exact timerTick_res_latch g' s ht2 hres

/-- Witness for C4: in the sample room on its final countdown second, both
orders of (correct submission, timer expiry) emit exactly one resolution
broadcast. -/
theorem c4_witness :
    ((chain (submitAnswer (gameActiveQ 0) "p" exQuestion.correctIndex)
        timerTick).isSome = true ∧
      resCountO (chain (submitAnswer (gameActiveQ 0) "p" exQuestion.correctIndex)
        timerTick) = 1) ∧
    ((chain (timerTick (gameActiveQ 0))
        (fun g2 => submitAnswer g2 "p" exQuestion.correctIndex)).isSome = true ∧
      resCountO (chain (timerTick (gameActiveQ 0))
        (fun g2 => submitAnswer g2 "p" exQuestion.correctIndex)) = 1) :=
  ⟨(c4_exactly_one_resolution (gameActiveQ 0) "p" (pPlayerEx 0) exQuestion rfl
      rfl rfl (by decide) rfl rfl).1,
   (c4_exactly_one_resolution (gameActiveQ 0) "p" (pPlayerEx 0) exQuestion rfl
      rfl rfl (by decide) rfl rfl).2.1⟩

/-- C2: the claim says the draw fails with `NoQuestionsAvailable` (and does
not loop forever) when the grade level has zero questions.  In the code,
`getRandomQuestion` returns `null` only when the grade key is absent; for a
grade that is configured but holds zero questions the empty filtered pool
triggers clear-and-retry, which recurses forever (the state after clearing
is unchanged).  Formally: for every fuel bound, every oracle and every
initial used-set, the recursion has not returned — the unbounded recursion
of the source never terminates on this input. -/
theorem c2_zero_question_grade_diverges (r : Nat → Nat) (fuel : Nat)
    (used : List String) :
    getRandomQuestionF emptyBank r fuel
      { gameNoQuestion with usedQuestions := used } = DrawResult.diverge := by
  induction fuel generalizing used with
  | zero => rfl
  | succ n ih => exact ih []

/-- C3: `shuffleAnswers` returns a permutation of the input answers (same
multiset), and the entry at the returned new correct index is exactly the
answer that sat at the original correct index. -/
theorem c3_shuffleAnswers_spec (r : Nat → Nat) (answers : List String)
    (ci : Nat) (h : ci < answers.length) :
    List.Perm (shuffleAnswers r answers ci).1 answers ∧
    (shuffleAnswers r answers ci).2 < (shuffleAnswers r answers ci).1.length ∧
    (shuffleAnswers r answers ci).1[(shuffleAnswers r answers ci).2]? =
      answers[ci]? := by
  obtain ⟨a, ha, hamem⟩ :=
    tagFrom_correct_mem ci answers 0 (Nat.zero_le _) (by simpa using h)
  have hperm := fisherYatesAux_perm r ((tagFrom ci 0 answers).length - 1)
    (tagFrom ci 0 answers)
  have hmem2 : ({ answer := a, isCorrect := true } : AnswerObj) ∈
      fisherYatesAux r ((tagFrom ci 0 answers).length - 1)
        (tagFrom ci 0 answers) := hperm.mem_iff.2 hamem
  have hex : ∃ x ∈ fisherYatesAux r ((tagFrom ci 0 answers).length - 1)
      (tagFrom ci 0 answers), x.isCorrect = true := ⟨_, hmem2, rfl⟩
  have hidx := List.findIdx_lt_length_of_exists hex
  have hpc := List.findIdx_getElem (w := hidx)
  have hmemobj := hperm.mem_iff.1 (List.getElem_mem hidx)
  obtain ⟨j, hj, hval⟩ := tagFrom_mem_correct ci answers 0 _ hmemobj hpc
  refine ⟨?_, ?_, ?_⟩
  · have hmap := hperm.map (fun x => x.answer)
    rw [tagFrom_map_answer] at hmap
    simpa [shuffleAnswers] using hmap
  · simp only [shuffleAnswers]
    simpa using hidx
  · simp only [shuffleAnswers]
    rw [List.getElem?_map, List.getElem?_eq_getElem hidx]
    have hj2 : j = ci := by omega
    rw [hj2] at hval
    simp [hval]

/-- Witness for C3: a four-answer list with correct index 2, shuffled with
a concrete oracle. -/
theorem c3_witness :
    List.Perm (shuffleAnswers (fun _ => 1) ["3", "4", "5", "6"] 2).1
      ["3", "4", "5", "6"] ∧
    (shuffleAnswers (fun _ => 1) ["3", "4", "5", "6"] 2).2 <
      (shuffleAnswers (fun _ => 1) ["3", "4", "5", "6"] 2).1.length ∧
    (shuffleAnswers (fun _ => 1) ["3", "4", "5", "6"] 2).1[
      (shuffleAnswers (fun _ => 1) ["3", "4", "5", "6"] 2).2]? =
      (["3", "4", "5", "6"] : List String)[2]? :=
  c3_shuffleAnswers_spec (fun _ => 1) ["3", "4", "5", "6"] 2 (by decide)

/-- Boolean negation at `true` forces `false`. -/
theorem bool_not_true {b : Bool} (h : (!b) = true) : b = false := by
  cases b
  · rfl
  · simp at h

/-- `Set.has` (here `List.contains`) returning `false` means non-membership. -/
theorem not_mem_of_contains_eq_false {a : String} {l : List String}
    (h : l.contains a = false) : a ∉ l := by
  intro hm
  rw [(by simpa [List.elem_iff] using hm : l.contains a = true)] at h
  cases h

/-- Non-membership makes `List.contains` return `false`. -/
theorem contains_eq_false_of_not_mem {a : String} {l : List String}
    (h : a ∉ l) : l.contains a = false := by
  cases hc : l.contains a
  · rfl
  · exact absurd (by simpa [List.elem_iff] using hc) h

/-- `List.contains` returning `true` means membership. -/
theorem mem_of_contains_eq_true {a : String} {l : List String}
    (h : l.contains a = true) : a ∈ l := by
  simpa [List.elem_iff] using h

/-- One draw with a non-exhausted pool: some unused question is drawn (the
choice lands inside the filtered pool), it is marked used, and nothing else
changes.  One unit of fuel is consumed: the clear-and-retry branch is not
taken. -/
theorem draw_step (bank : String → Option (List (String × List QRec)))
    (r : Nat → Nat) (g : Game) (gq : List (String × List QRec)) (fuel : Nat)
    (hg : lookupGrade bank g.gradeLevel = some gq)
    (hav : ∃ q ∈ flattenStrands gq, g.usedQuestions.contains q.id = false) :
    ∃ q, q ∈ flattenStrands gq ∧ g.usedQuestions.contains q.id = false ∧
      getRandomQuestionF bank r (fuel + 1) g =
        DrawResult.drawn q { g with usedQuestions := q.id :: g.usedQuestions } := by
  obtain ⟨q0, hq0p, hq0u⟩ := hav
  have hq0a : q0 ∈ (flattenStrands gq).filter
      (fun q => !g.usedQuestions.contains q.id) :=
    List.mem_filter.2 ⟨hq0p, by simpa using not_mem_of_contains_eq_false hq0u⟩
  have hpos : 0 < ((flattenStrands gq).filter
      (fun q => !g.usedQuestions.contains q.id)).length :=
    List.length_pos.2 (List.ne_nil_of_mem hq0a)
  have hlt : r ((flattenStrands gq).filter
        (fun q => !g.usedQuestions.contains q.id)).length %
      ((flattenStrands gq).filter
        (fun q => !g.usedQuestions.contains q.id)).length <
      ((flattenStrands gq).filter
        (fun q => !g.usedQuestions.contains q.id)).length :=
    Nat.mod_lt _ hpos
  have hgd : ((flattenStrands gq).filter
        (fun q => !g.usedQuestions.contains q.id)).getD
        (r ((flattenStrands gq).filter
          (fun q => !g.usedQuestions.contains q.id)).length %
         ((flattenStrands gq).filter
          (fun q => !g.usedQuestions.contains q.id)).length) default =
      ((flattenStrands gq).filter
        (fun q => !g.usedQuestions.contains q.id))[
        r ((flattenStrands gq).filter
          (fun q => !g.usedQuestions.contains q.id)).length %
        ((flattenStrands gq).filter
          (fun q => !g.usedQuestions.contains q.id)).length] := by
    rw [List.getD_eq_getElem?_getD, List.getElem?_eq_getElem hlt]
    rfl
  have hmem := List.getElem_mem hlt
  have hmf := List.mem_filter.1 hmem
  refine ⟨_, hmf.1, bool_not_true hmf.2, ?_⟩
  simp only [getRandomQuestionF, hg]
  have hne0 : ¬ ((flattenStrands gq).filter
      (fun q => !g.usedQuestions.contains q.id)).length = 0 := by omega
  rw [if_neg hne0, hgd]

/-- Consecutive draws while the used-set stays within a duplicate-free pool:
every draw succeeds, the drawn ids are pairwise distinct and disjoint from
the ids already used. -/
theorem drawSeq_distinct_aux (bank : String → Option (List (String × List QRec)))
    (gq : List (String × List QRec)) :
    ∀ (rs : List (Nat → Nat)) (g : Game),
      lookupGrade bank g.gradeLevel = some gq →
      g.usedQuestions.Nodup →
      (∀ i ∈ g.usedQuestions, i ∈ (flattenStrands gq).map (fun q => q.id)) →
      ((flattenStrands gq).map (fun q => q.id)).Nodup →
      g.usedQuestions.length + rs.length ≤ (flattenStrands gq).length →
      ∃ qs g1, drawSeq bank rs g = some (qs, g1) ∧ qs.length = rs.length ∧
        (qs.map (fun q => q.id)).Nodup ∧
        (∀ i ∈ qs.map (fun q => q.id), i ∉ g.usedQuestions) := by
  intro rs
  induction rs with
  | nil =>
    intro g hg hnd hsub hids hlen
    exact ⟨[], g, rfl, rfl, List.nodup_nil, by simp⟩
  | cons rr rest ih =>
    intro g hg hnd hsub hids hlen
    have hav : ∃ q ∈ flattenStrands gq, g.usedQuestions.contains q.id = false := by
      by_contra hcon
      push_neg at hcon
      have hsub2 : (flattenStrands gq).map (fun q => q.id) ⊆ g.usedQuestions := by
        intro i hi
        rcases List.mem_map.1 hi with ⟨q, hq, rfl⟩
        have hc := hcon q hq
        have hc2 : g.usedQuestions.contains q.id = true := by
          cases hcb : g.usedQuestions.contains q.id
          · exact absurd hcb hc
          · rfl
        exact mem_of_contains_eq_true hc2
      have hle := (List.subperm_of_subset hids hsub2).length_le
      rw [List.length_map] at hle
      simp at hlen
      omega
    obtain ⟨q, hqp, hqu, heq⟩ := draw_step bank rr g gq 1 hg hav
    have hqnotmem : q.id ∉ g.usedQuestions := not_mem_of_contains_eq_false hqu
    have heq2 : getRandomQuestionF bank rr 2 g =
        DrawResult.drawn q { g with usedQuestions := q.id :: g.usedQuestions } := heq
    obtain ⟨qs, g1, hseq, hqslen, hqsnodup, hqsnew⟩ :=
      ih { g with usedQuestions := q.id :: g.usedQuestions }
        (by simpa using hg)
        (List.nodup_cons.2 ⟨hqnotmem, hnd⟩)
        (by
          intro i hi
          rcases List.mem_cons.1 hi with hi | hi
          · subst hi
            exact List.mem_map.2 ⟨q, hqp, rfl⟩
          · exact hsub i hi)
        hids
        (by
          simp only [List.length_cons] at hlen ⊢
          omega)
    refine ⟨q :: qs, g1, ?_, by simp [hqslen], ?_, ?_⟩
    · simp only [drawSeq, heq2, hseq]
    · rw [List.map_cons, List.nodup_cons]
      refine ⟨?_, hqsnodup⟩
      intro hmemq
      have hni := hqsnew _ hmemq
      simp at hni
    · intro i hi
      rw [List.map_cons, List.mem_cons] at hi
      rcases hi with hi2 | hi2
      · subst hi2
        exact hqnotmem
      · intro hmem
        exact (hqsnew i hi2) (List.mem_cons_of_mem _ hmem)

/-- C7: starting from an empty used-set over a pool of `N` questions with
pairwise-distinct ids, any `k ≤ N` consecutive draws all succeed and yield
pairwise-distinct question ids; and once every pool id is in the used-set
(exhaustion), the next draw first clears the used-set — afterwards it
contains only the id just drawn — so a repeat can occur only after that
clearing. -/
theorem c7_draw_exhaustion_cycle
    (bank : String → Option (List (String × List QRec)))
    (gq : List (String × List QRec)) (rs : List (Nat → Nat)) (g : Game)
    (hg : lookupGrade bank g.gradeLevel = some gq)
    (hused : g.usedQuestions = [])
    (hnodup : ((flattenStrands gq).map (fun q => q.id)).Nodup)
    (hlen : rs.length ≤ (flattenStrands gq).length) :
    (∃ qs g1, drawSeq bank rs g = some (qs, g1) ∧ qs.length = rs.length ∧
      (qs.map (fun q => q.id)).Nodup) ∧
    (∀ rr g2, lookupGrade bank g2.gradeLevel = some gq →
      (∀ q ∈ flattenStrands gq, g2.usedQuestions.contains q.id = true) →
      flattenStrands gq ≠ [] →
      ∃ q, q ∈ flattenStrands gq ∧
        getRandomQuestionF bank rr 2 g2 =
          DrawResult.drawn q { g2 with usedQuestions := [q.id] }) := by
  constructor
  · obtain ⟨qs, g1, hseq, hqslen, hqsnodup, _⟩ :=
      drawSeq_distinct_aux bank gq rs g hg
        (by rw [hused]; exact List.nodup_nil)
        (by rw [hused]; intro i hi; cases hi)
        hnodup
        (by rw [hused]; simpa using hlen)
    exact ⟨qs, g1, hseq, hqslen, hqsnodup⟩
  · intro rr g2 hg2 hall2 hne2
    have hfilter : (flattenStrands gq).filter
        (fun q => !g2.usedQuestions.contains q.id) = [] := by
      rw [List.filter_eq_nil_iff]
      intro q hq
      simpa using mem_of_contains_eq_true (hall2 q hq)
    have hstep1 : getRandomQuestionF bank rr 2 g2 =
        getRandomQuestionF bank rr 1 { g2 with usedQuestions := [] } := by
      show getRandomQuestionF bank rr (1 + 1) g2 = _
      simp only [getRandomQuestionF, hg2, hfilter, List.length_nil]
      simp
    obtain ⟨q, hqp, hqu, heq⟩ := draw_step bank rr
      { g2 with usedQuestions := [] } gq 0 (by simpa using hg2)
      (by
        obtain ⟨q, hq⟩ := List.exists_mem_of_ne_nil _ hne2
        exact ⟨q, hq, by simp⟩)
    refine ⟨q, hqp, ?_⟩
    rw [hstep1]
    rw [show (0 + 1 : Nat) = 1 from rfl] at heq
    rw [heq]

/-- Witness for C7: three draws over the three-question sample pool give
three distinct question ids. -/
theorem c7_witness :
    ∃ qs g1, drawSeq bankEx rsEx gameNoQuestion = some (qs, g1) ∧
      qs.length = rsEx.length ∧ (qs.map (fun q => q.id)).Nodup :=
  (c7_draw_exhaustion_cycle bankEx gradeSixEx rsEx gameNoQuestion rfl rfl
    (by decide) (by decide)).1
